import Mathlib

/-!
Shallow embedding of `scrape_vvvfast.py`, the incremental virtualized-table
harvester.  The embedding covers the pure algorithmic core of the script:

* the row read performed inside `extract_new_products` (the single
  `page.evaluate` that returns the trimmed cell texts of all visible rows);
* the dedup-and-accept fold of `extract_new_products` (keyed on the first
  cell, threading the caller's `seen_ids` set);
* the scrollable-ancestor resolution script (`getScroller` in the JS
  evaluated by `scroll_and_collect_all`);
* the scroll advance computation (`next = min(prev + clientHeight, max)`);
* the harvest loop `scroll_and_collect_all` itself, with its
  no-progress accounting, its stop test and its 20000-round safety
  ceiling.  The page is modelled as an oracle assigning to every round the
  row read result and the scroll outcome observed that round.
* the `showing <k> of <N>` target-count detection of `main`, modelled
  with the exact (raw-string) regular expression the source compiles.
-/

namespace Scrape

/-- Whitespace test covering the characters the scripts can meet: space,
tab, newline, carriage return, vertical tab, form feed. -/
def isWs (c : Char) : Bool :=
  c = ' ' || c = '\t' || c = '\n' || c = '\r' || c.toNat = 11 || c.toNat = 12

/-- JavaScript `String.prototype.trim` on the ASCII whitespace range:
drop whitespace from both ends. -/
def jsTrim (s : String) : String :=
  String.mk (((s.toList.dropWhile isWs).reverse.dropWhile isWs).reverse)

/-- One `tr` element under the table body: its layout visibility
(`offsetParent !== null`) and the raw `innerText` of each `td`. -/
structure RowEl where
  visible : Bool
  cells : List String
deriving DecidableEq, Repr

/-- The row read of `extract_new_products` (the single `page.evaluate`):
keep the rows that are laid out, and map each to its trimmed cell texts. -/
def readRows (dom : List RowEl) : List (List String) :=
  (dom.filter (fun r => r.visible)).map (fun r => r.cells.map jsTrim)

/-- The row read again, with the rendered row set threaded through
explicitly as state: the read returns its result and the row set it leaves
behind, which is the one it was given (the script is read-only). -/
def readRowsST (dom : List RowEl) : List (List String) × List RowEl :=
  (readRows dom, dom)

/-- One harvested record, as built in `extract_new_products`: the first
cell as `id`, positional projections of cells 1..6 defaulting to the empty
string, and the raw cell list. -/
structure Item where
  id : String
  category : String
  color : String
  dimensions : String
  price : String
  product : String
  score : String
  cells : List String
deriving DecidableEq, Repr

/-- The record built from one accepted row (`item = {...}` in
`extract_new_products`). -/
def mkItem (cells : List String) : Item :=
  { id := cells.headI
    category := cells.getD 1 ""
    color := cells.getD 2 ""
    dimensions := cells.getD 3 ""
    price := cells.getD 4 ""
    product := cells.getD 5 ""
    score := cells.getD 6 ""
    cells := cells }

/-- The dedup-and-accept fold of `extract_new_products`: skip a row whose
cell list is empty, whose first cell is empty, or whose first cell is
already in `seen`; otherwise record the first cell as seen and emit the
item.  Returns the accepted items in offer order together with the final
seen set (the Python `set` is modelled as a list used only through
membership). -/
def dedupRows : List (List String) → List String → List Item × List String
  | [], seen => ([], seen)
  | [] :: rest, seen => dedupRows rest seen
  | (c0 :: cs) :: rest, seen =>
    if c0 = "" ∨ c0 ∈ seen then dedupRows rest seen
    else
      let r := dedupRows rest (seen ++ [c0])
      (mkItem (c0 :: cs) :: r.1, r.2)

/-- Embedding of `extract_new_products`: the row read followed by the dedup fold. -/
def extract_new_products (dom : List RowEl) (seen : List String) :
    List Item × List String :=
  dedupRows (readRows dom) seen

/-- The dedup fold applied to successive rounds of offered rows, threading
the seen set across rounds exactly as the loop threads `seen_ids`. -/
def dedupRounds : List (List (List String)) → List String → List Item × List String
  | [], seen => ([], seen)
  | r :: rs, seen =>
    let a := dedupRows r seen
    let b := dedupRounds rs a.2
    (a.1 ++ b.1, b.2)

/-- The dedup key of an offered row: its first cell when that is
non-empty, nothing otherwise. -/
def keyOf : List String → Option String
  | [] => none
  | c :: _ => if c = "" then none else some c

/-- The non-empty first-cell keys of a round of offered rows, in offer
order. -/
def offeredKeys (rows : List (List String)) : List String :=
  rows.filterMap keyOf

/-- Modelled from the spec: the first-encounter-order deduplication of a
key sequence, relative to an initial seen set — the order the Dedup Ledger
is specified to produce. -/
def firstDedupFrom : List String → List String → List String
  | _, [] => []
  | seen, k :: ks =>
    if k ∈ seen then firstDedupFrom seen ks
    else k :: firstDedupFrom (seen ++ [k]) ks

/-- Outcome of the scroll-advance script: `ok:false` with a reason
(`no-table` or `no-scroller`), or `ok:true` with the `prev`, `now` and
`max` fields it reports. -/
inductive ScrollOutcome where
  | fail (reason : String)
  | ok (prev now max : Int)
deriving DecidableEq, Repr

/-- Computation of `at_bottom` as the loop performs it: `False` unless the outcome is
`ok`, in which case `now >= max`. -/
def atBottom : ScrollOutcome → Bool
  | .fail _ => false
  | .ok _ n m => decide (m ≤ n)

/-- The outer guard of the stop test:
`not scrolled.get("ok") or scrolled.get("now") == scrolled.get("prev")`. -/
def noMove : ScrollOutcome → Bool
  | .fail _ => true
  | .ok p n _ => n == p

/-- The stop test of the harvest loop, evaluated after the scroll of a
round with `noProg` consecutive no-progress rounds recorded:
the break fires when the outer guard holds, `at_bottom` holds and
`no_progress_rounds >= 5`. -/
def stopNow (sc : ScrollOutcome) (noProg : ℕ) : Bool :=
  noMove sc && atBottom sc && decide (5 ≤ noProg)

/-- What the page presents in one round: the result of the row read and
the outcome of the scroll advance. -/
structure RoundInput where
  rows : List (List String)
  scroll : ScrollOutcome

/-- Mutable state of `scroll_and_collect_all`: `products`, `seen_ids`,
`attempts`, `no_progress_rounds`, `last_count`, and the sequence of
progress percentages printed so far (the only place the target hint is
read). -/
structure HState where
  products : List Item
  seen : List String
  attempts : ℕ
  noProgress : ℕ
  lastCount : ℕ
  plog : List ℚ

/-- The progress percentage printed every 25 rounds:
`len(products) / target_count * 100 if target_count else 0`. -/
def pctOf (target : Int) (n : ℕ) : ℚ :=
  if target = 0 then 0 else (n : ℚ) / (target : ℚ) * 100

/-- One iteration of the harvest loop body up to (and excluding) the stop
test: increment `attempts`, extract and accept new rows, update the
no-progress accounting, and log the progress percentage on every 25th
round. -/
def roundStep (target : Int) (inp : RoundInput) (st : HState) : HState :=
  let ext := dedupRows inp.rows st.seen
  let products' := st.products ++ ext.1
  { products := products'
    seen := ext.2
    attempts := st.attempts + 1
    noProgress := if st.lastCount < products'.length then 0 else st.noProgress + 1
    lastCount := if st.lastCount < products'.length then products'.length else st.lastCount
    plog := if (st.attempts + 1) % 25 = 0 then st.plog ++ [pctOf target products'.length]
            else st.plog }

/-- Completion reason: the loop either breaks out (`exhausted`) or its
round counter hits the safety ceiling. -/
inductive Reason where
  | exhausted
  | safetyCeiling
deriving DecidableEq, Repr

/-- The harvest loop, recursing on the number of rounds the safety
ceiling still allows.  Round `t` (1-based, equal to `attempts` after its
increment) observes `env t`. -/
def harvestAux (env : ℕ → RoundInput) (target : Int) :
    ℕ → HState → HState × Reason
  | 0, st => (st, Reason.safetyCeiling)
  | fuel + 1, st =>
    let st' := roundStep target (env (st.attempts + 1)) st
    if stopNow (env (st.attempts + 1)).scroll st'.noProgress then (st', Reason.exhausted)
    else harvestAux env target fuel st'

/-- Safety ceiling of the loop: `safety_ceiling = 20000`. -/
def safety_ceiling : ℕ := 20000

/-- Initial harvest state: empty products, empty seen set, all counters
zero. -/
def initState : HState :=
  { products := [], seen := [], attempts := 0, noProgress := 0, lastCount := 0, plog := [] }

/-- Embedding of `scroll_and_collect_all`, as a function of the round oracle and the
target hint: run the loop from the initial state with the full safety
ceiling as fuel. -/
def scroll_and_collect_all (env : ℕ → RoundInput) (target : Int) : HState × Reason :=
  harvestAux env target safety_ceiling initState

/-- The observable fields of the harvest state that the spec's
noninterference property speaks about (everything except the progress
log). -/
def coreOf (st : HState) : List Item × List String × ℕ × ℕ × ℕ :=
  (st.products, st.seen, st.attempts, st.noProgress, st.lastCount)

/-- The non-empty keys offered during rounds `1..r` of an oracle. -/
def offeredKeysUpTo (env : ℕ → RoundInput) (r : ℕ) : List String :=
  (List.range r).flatMap (fun i => offeredKeys (env (i + 1)).rows)

/-- Round oracle of the failing run for the no-scroller analysis: a table
with zero rows whose scroll step reports `no-scroller` every round. -/
def envNoScroller : ℕ → RoundInput :=
  fun _ => { rows := [], scroll := ScrollOutcome.fail "no-scroller" }

/-- Round oracle witnessing the safety-ceiling bound: the scroller always
moves and is never at the bottom. -/
def envNeverBottom : ℕ → RoundInput :=
  fun _ => { rows := [], scroll := ScrollOutcome.ok 0 3 10 }

/-- Round oracle witnessing the termination bound: at the bottom and
stalled from the start, with no rows. -/
def envStalled : ℕ → RoundInput :=
  fun _ => { rows := [], scroll := ScrollOutcome.ok 7 7 7 }

/-- The scroll advance computation of the round script, given the
scroller's current `scrollTop`, `scrollHeight` and `clientHeight`:
`max = scrollHeight - clientHeight`, `next = min(prev + clientHeight, max)`,
assign `scrollTop = next` and report `{prev, now, max}`. -/
def scrollStep (prev scrollHeight clientHeight : Int) : ScrollOutcome :=
  ScrollOutcome.ok prev (min (prev + clientHeight) (scrollHeight - clientHeight))
    (scrollHeight - clientHeight)

/-- A DOM element as the scroller-resolution script inspects it: tag name,
computed `overflowY`, `scrollHeight`, `clientHeight`, and child elements
in document order. -/
inductive Elem where
  | mk (tag overflowY : String) (scrollHeight clientHeight : Int) (children : List Elem)

/-- Tag name of an element. -/
def Elem.tag : Elem → String
  | .mk t _ _ _ _ => t

/-- Computed `overflowY` of an element. -/
def Elem.overflowY : Elem → String
  | .mk _ o _ _ _ => o

/-- Reported `scrollHeight` of an element. -/
def Elem.scrollHeight : Elem → Int
  | .mk _ _ s _ _ => s

/-- Reported `clientHeight` of an element. -/
def Elem.clientHeight : Elem → Int
  | .mk _ _ _ c _ => c

/-- Child elements of an element. -/
def Elem.children : Elem → List Elem
  | .mk _ _ _ _ cs => cs

/-- The scroller predicate of the source script:
`(overflowY === 'auto' || overflowY === 'scroll') && scrollHeight > clientHeight + 1`. -/
def isScrollerB (e : Elem) : Bool :=
  (e.overflowY == "auto" || e.overflowY == "scroll")
    && decide (e.clientHeight + 1 < e.scrollHeight)

/-- Modelled from the spec's words for comparison: the scroller predicate
with a margin of at least one unit, `scrollHeight > clientHeight`. -/
def isScrollerSpecB (e : Elem) : Bool :=
  (e.overflowY == "auto" || e.overflowY == "scroll")
    && decide (e.clientHeight < e.scrollHeight)

/-- The upward walk of `getScroller`: starting at the table element and
following parents, stop (without a result) on the document body or when
the chain ends, and return the first element satisfying the scroller
predicate. -/
def walkUp : List Elem → Option Elem
  | [] => none
  | e :: rest =>
    if e.tag == "body" then none
    else if isScrollerB e then some e else walkUp rest

/-- The upward walk with the spec's predicate, for comparison. -/
def walkUpSpec : List Elem → Option Elem
  | [] => none
  | e :: rest =>
    if e.tag == "body" then none
    else if isScrollerSpecB e then some e else walkUpSpec rest

mutual

/-- Proper descendants of an element in document (preorder) order, as
`querySelectorAll` enumerates them. -/
def descOf : Elem → List Elem
  | .mk _ _ _ _ cs => descList cs

/-- Preorder traversal of a forest of elements. -/
def descList : List Elem → List Elem
  | [] => []
  | c :: cs => c :: (descOf c ++ descList cs)

end

/-- Embedding of `getScroller` from the source script: walk up from the table (the chain
of ancestors is passed alongside, nearest first); if that fails, scan the
table's `div` descendants (`table.querySelectorAll('div')`) in document
order for the first satisfying the same predicate. -/
def getScroller (table : Elem) (ancestors : List Elem) : Option Elem :=
  match walkUp (table :: ancestors) with
  | some e => some e
  | none => (descOf table).find? (fun d => d.tag == "div" && isScrollerB d)

/-- Modelled from the spec's words for comparison: the resolver with a
one-unit margin and a fallback over all descendants. -/
def getScrollerSpec (table : Elem) (ancestors : List Elem) : Option Elem :=
  match walkUpSpec (table :: ancestors) with
  | some e => some e
  | none => (descOf table).find? isScrollerSpecB

/-- Table element of the resolver comparison: not itself scrollable. -/
def tableC9 : Elem := Elem.mk "table" "visible" 5 5 []

/-- Ancestor element of the resolver comparison: `overflowY: auto` with
`scrollHeight` exceeding `clientHeight` by exactly one unit. -/
def ancC9 : Elem := Elem.mk "div" "auto" 11 10 []

/-- Python `str.lower` on the ASCII range: map capital letters to their
lowercase counterparts. -/
def pyLower (s : String) : String :=
  String.mk (s.toList.map (fun c =>
    if 65 ≤ c.toNat ∧ c.toNat ≤ 90 then Char.ofNat (c.toNat + 32) else c))

/-- Decimal digit test for the regex `\d` class. -/
def isDigitB (c : Char) : Bool := c.isDigit

/-- Match a literal character sequence at the head of the input, returning
the rest of the input. -/
def matchLit : List Char → List Char → Option (List Char)
  | [], cs => some cs
  | _ :: _, [] => none
  | l :: ls, c :: cs => if c = l then matchLit ls cs else none

/-- Match one-or-more characters of a class at the head of the input,
greedily, returning the rest of the input.  For the patterns below the
class never overlaps the following literal, so greedy matching agrees
with full regex semantics. -/
def matchPlus (p : Char → Bool) : List Char → Option (List Char)
  | [] => none
  | c :: cs => if p c then some (cs.dropWhile p) else none

/-- Match a final captured one-or-more class at the head of the input,
returning the captured characters. -/
def capturePlus (p : Char → Bool) : List Char → Option (List Char)
  | [] => none
  | c :: cs => if p c then some (c :: cs.takeWhile p) else none

/-- Attempt, at the current position, the regular expression the source
actually compiles.  `re.search(r'showing\\s+\\d+\\s+of\\s+(\\d+)', ...)`
uses a raw string, so each `\\` is an escaped literal backslash and each
`s+`/`d+` a literal letter repeated: the pattern is
`showing` `\` `s+` `\` `d+` `\` `s+` `of` `\` `s+` followed by the group
`\` `d+`.  Returns the captured group. -/
def matchActualAt (cs : List Char) : Option (List Char) := do
  let cs ← matchLit "showing".toList cs
  let cs ← matchLit ['\\'] cs
  let cs ← matchPlus (fun c => c = 's') cs
  let cs ← matchLit ['\\'] cs
  let cs ← matchPlus (fun c => c = 'd') cs
  let cs ← matchLit ['\\'] cs
  let cs ← matchPlus (fun c => c = 's') cs
  let cs ← matchLit "of".toList cs
  let cs ← matchLit ['\\'] cs
  let cs ← matchPlus (fun c => c = 's') cs
  let cs ← matchLit ['\\'] cs
  let g ← capturePlus (fun c => c = 'd') cs
  pure ('\\' :: g)

/-- Attempt, at the current position, the pattern the claim describes:
`showing` whitespace digits whitespace `of` whitespace and a captured
digit group. -/
def matchIntendedAt (cs : List Char) : Option (List Char) := do
  let cs ← matchLit "showing".toList cs
  let cs ← matchPlus isWs cs
  let cs ← matchPlus isDigitB cs
  let cs ← matchPlus isWs cs
  let cs ← matchLit "of".toList cs
  let cs ← matchPlus isWs cs
  capturePlus isDigitB cs

/-- Embedding of `re.search`: try the position matcher at every suffix of the input,
leftmost match first. -/
def searchAux (m : List Char → Option (List Char)) : List Char → Option (List Char)
  | [] => m []
  | c :: cs =>
    match m (c :: cs) with
    | some g => some g
    | none => searchAux m cs

/-- Search a page text for a pattern after lowercasing, as
`re.search(pat, page_text.lower())` does; returns the captured group. -/
def searchLowered (m : List Char → Option (List Char)) (s : String) : Option String :=
  (searchAux m (pyLower s).toList).map (fun l => String.mk l)

/-- Parse a digit string as `int` does on a plain digit sequence; any
other content raises, modelled as `none`. -/
def parseIntPy (l : List Char) : Option ℕ :=
  if l ≠ [] ∧ l.all isDigitB then
    some (l.foldl (fun a c => a * 10 + (c.toNat - 48)) 0)
  else none

/-- The target-count detection of `main`: start from the default 2849,
search the lowercased page text with the compiled pattern, and on a match
convert the captured group with `int` (an unconvertible group raises,
modelled as `Except.error`) and adopt it when positive. -/
def computeTargetCount (pageText : String) : Except String ℤ :=
  match searchLowered matchActualAt pageText with
  | none => Except.ok 2849
  | some g =>
    match parseIntPy g.toList with
    | none => Except.error "ValueError"
    | some n => Except.ok (if 0 < n then (n : ℤ) else 2849)

/-- Modelled from the spec: the target-count detection as the claim
states it, using the whitespace-and-digits pattern. -/
def computeTargetCountSpec (pageText : String) : ℤ :=
  match searchLowered matchIntendedAt pageText with
  | none => 2849
  | some g =>
    match parseIntPy g.toList with
    | none => 2849
    | some n => if 0 < n then (n : ℤ) else 2849

/-- Page text used to exercise the target-count detection. -/
def bannerText : String := "Showing 10 of 500 products"

/-- Rendered row set used for the repeated-extraction comparison: one
visible row with a non-empty first cell. -/
def domC6 : List RowEl := [{ visible := true, cells := ["A1", "Widget"] }]

theorem dedupRows_map_id (rows : List (List String)) :
    ∀ seen, ((dedupRows rows seen).1.map Item.id) = firstDedupFrom seen (offeredKeys rows) := by
  induction rows with
  | nil => intro seen; rfl
  | cons cells rest ih =>
    intro seen
    cases cells with
    | nil =>
      simpa [dedupRows, offeredKeys, keyOf, List.filterMap_cons] using ih seen
    | cons c0 cs =>
      by_cases hc : c0 = ""
      · simpa [dedupRows, offeredKeys, keyOf, hc, List.filterMap_cons] using ih seen
      · by_cases hm : c0 ∈ seen
        · simpa [dedupRows, offeredKeys, keyOf, hc, hm, List.filterMap_cons,
            firstDedupFrom] using ih seen
        · have hcm : ¬(c0 = "" ∨ c0 ∈ seen) := by tauto
          simp only [dedupRows, if_neg hcm, offeredKeys, List.filterMap_cons, keyOf,
            if_neg hc, List.map_cons]
          rw [firstDedupFrom, if_neg hm]
          exact congrArg (fun l => (mkItem (c0 :: cs)).id :: l)
            (by simpa [offeredKeys] using ih (seen ++ [c0]))

theorem dedupRows_seen_mem (rows : List (List String)) :
    ∀ seen k, (k ∈ (dedupRows rows seen).2 ↔ k ∈ seen ∨ k ∈ offeredKeys rows) := by
  induction rows with
  | nil => intro seen k; simp [dedupRows, offeredKeys]
  | cons cells rest ih =>
    intro seen k
    cases cells with
    | nil => simpa [dedupRows, offeredKeys, keyOf, List.filterMap_cons] using ih seen k
    | cons c0 cs =>
      by_cases hc : c0 = ""
      · simpa [dedupRows, offeredKeys, keyOf, hc, List.filterMap_cons] using ih seen k
      · by_cases hm : c0 ∈ seen
        · rw [dedupRows, if_pos (Or.inr hm), ih seen k]
          simp only [offeredKeys, List.filterMap_cons, keyOf, if_neg hc, List.mem_cons]
          constructor
          · rintro (h | h)
            · exact Or.inl h
            · exact Or.inr (Or.inr h)
          · rintro (h | h | h)
            · exact Or.inl h
            · exact Or.inl (h ▸ hm)
            · exact Or.inr h
        · have hcm : ¬(c0 = "" ∨ c0 ∈ seen) := by tauto
          rw [dedupRows, if_neg hcm]
          simp only [ih (seen ++ [c0]) k, offeredKeys, List.filterMap_cons, keyOf,
            if_neg hc, List.mem_cons, List.mem_append, List.mem_singleton]
          tauto

theorem dedupRows_no_new (rows : List (List String)) :
    ∀ seen, (∀ k ∈ offeredKeys rows, k ∈ seen) → dedupRows rows seen = ([], seen) := by
  induction rows with
  | nil => intro seen _; rfl
  | cons cells rest ih =>
    intro seen h
    cases cells with
    | nil =>
      rw [dedupRows]
      exact ih seen (by simpa [offeredKeys, keyOf, List.filterMap_cons] using h)
    | cons c0 cs =>
      by_cases hc : c0 = ""
      · rw [dedupRows, if_pos (Or.inl hc)]
        exact ih seen (by simpa [offeredKeys, keyOf, hc, List.filterMap_cons] using h)
      · have hm : c0 ∈ seen := by
          apply h
          simp [offeredKeys, List.filterMap_cons, keyOf, if_neg hc]
        rw [dedupRows, if_pos (Or.inr hm)]
        apply ih seen
        intro k hk
        apply h
        simp only [offeredKeys, List.filterMap_cons, keyOf, if_neg hc, List.mem_cons]
        exact Or.inr (by simpa [offeredKeys] using hk)

theorem firstDedupFrom_mem (ks : List String) :
    ∀ seen x, (x ∈ firstDedupFrom seen ks ↔ x ∈ ks ∧ x ∉ seen) := by
  induction ks with
  | nil => intro seen x; simp [firstDedupFrom]
  | cons k ks ih =>
    intro seen x
    by_cases hk : k ∈ seen
    · rw [firstDedupFrom, if_pos hk, ih seen x]
      simp only [List.mem_cons]
      constructor
      · rintro ⟨h1, h2⟩; exact ⟨Or.inr h1, h2⟩
      · rintro ⟨h1 | h1, h2⟩
        · exact absurd (h1 ▸ hk) h2
        · exact ⟨h1, h2⟩
    · rw [firstDedupFrom, if_neg hk]
      simp only [List.mem_cons, ih (seen ++ [k]) x, List.mem_append, List.mem_singleton]
      constructor
      · rintro (rfl | ⟨h1, h2⟩)
        · exact ⟨Or.inl rfl, hk⟩
        · exact ⟨Or.inr h1, fun hs => h2 (Or.inl hs)⟩
      · rintro ⟨rfl | h1, h2⟩
        · exact Or.inl rfl
        · by_cases hxk : x = k
          · exact Or.inl hxk
          · exact Or.inr ⟨h1, by tauto⟩

theorem firstDedupFrom_nodup (ks : List String) :
    ∀ seen, (firstDedupFrom seen ks).Nodup := by
  induction ks with
  | nil => intro seen; simp [firstDedupFrom]
  | cons k ks ih =>
    intro seen
    by_cases hk : k ∈ seen
    · rw [firstDedupFrom, if_pos hk]; exact ih seen
    · rw [firstDedupFrom, if_neg hk]
      refine List.nodup_cons.2 ⟨?_, ih (seen ++ [k])⟩
      intro hmem
      have := (firstDedupFrom_mem ks (seen ++ [k]) k).1 hmem
      simp at this

theorem offeredKeys_ne_empty (rows : List (List String)) (k : String)
    (h : k ∈ offeredKeys rows) : k ≠ "" := by
  obtain ⟨c, _, hc⟩ := List.mem_filterMap.1 h
  cases c with
  | nil => exact absurd hc (by simp [keyOf])
  | cons c0 cs =>
    by_cases h0 : c0 = ""
    · exact absurd hc (by simp [keyOf, h0])
    · have : c0 = k := by simpa [keyOf, h0] using hc
      exact this ▸ h0

theorem dedupRows_append (xs : List (List String)) :
    ∀ ys seen,
      dedupRows (xs ++ ys) seen
        = ((dedupRows xs seen).1 ++ (dedupRows ys (dedupRows xs seen).2).1,
           (dedupRows ys (dedupRows xs seen).2).2) := by
  induction xs with
  | nil => intro ys seen; simp [dedupRows]
  | cons cells rest ih =>
    intro ys seen
    cases cells with
    | nil => simpa [dedupRows] using ih ys seen
    | cons c0 cs =>
      by_cases hcm : c0 = "" ∨ c0 ∈ seen
      · simp only [List.cons_append, dedupRows, if_pos hcm]
        exact ih ys seen
      · simp only [List.cons_append, dedupRows, if_neg hcm]
        rw [List.append_eq, ih ys (seen ++ [c0])]

theorem dedupRounds_eq (rss : List (List (List String))) :
    ∀ seen, dedupRounds rss seen = dedupRows rss.flatten seen := by
  induction rss with
  | nil => intro seen; simp [dedupRounds, List.flatten_nil, dedupRows]
  | cons r rs ih =>
    intro seen
    rw [dedupRounds, List.flatten_cons, dedupRows_append, ih]

/-- C2: over any sequence of rounds of offered rows, the accepted output
keys are exactly the first-encounter-order deduplication of the non-empty
first-cell keys offered: no key repeats, the keys accepted are precisely
the keys offered, no accepted record has an empty key, and the output
length is the number of distinct non-empty keys ever offered. -/
theorem C2_dedup_ledger_properties (rounds : List (List (List String))) :
    ((dedupRounds rounds []).1.map Item.id)
        = firstDedupFrom [] (offeredKeys rounds.flatten)
    ∧ ((dedupRounds rounds []).1.map Item.id).Nodup
    ∧ (∀ x, (x ∈ (dedupRounds rounds []).1.map Item.id ↔ x ∈ offeredKeys rounds.flatten))
    ∧ (∀ it ∈ (dedupRounds rounds []).1, it.id ≠ "")
    ∧ (dedupRounds rounds []).1.length = (offeredKeys rounds.flatten).toFinset.card := by
  rw [dedupRounds_eq rounds []]
  have hmap := dedupRows_map_id rounds.flatten []
  refine ⟨hmap, ?_, ?_, ?_, ?_⟩
  · rw [hmap]; exact firstDedupFrom_nodup _ _
  · intro x
    rw [hmap, firstDedupFrom_mem]
    simp
  · intro it hit
    have hmem : it.id ∈ (dedupRows rounds.flatten []).1.map Item.id :=
      List.mem_map_of_mem Item.id hit
    rw [hmap, firstDedupFrom_mem] at hmem
    exact offeredKeys_ne_empty _ _ hmem.1
  · have hlen : (dedupRows rounds.flatten []).1.length
        = (firstDedupFrom [] (offeredKeys rounds.flatten)).length := by
      rw [← hmap, List.length_map]
    rw [hlen, ← List.toFinset_card_of_nodup (firstDedupFrom_nodup _ [])]
    congr 1
    ext a
    simp [List.mem_toFinset, firstDedupFrom_mem]

/-- C5: on a resolved scroller with `0 ≤ prev ≤ max` and a non-negative
viewport height, the scroll advance reports `prev`, `now = min(prev +
clientHeight, max)` and `max = scrollHeight - clientHeight`; the new
position stays within `[0, max]`, never decreases, and `at_bottom` holds
exactly when `now ≥ max`. -/
theorem C5_scroll_advancer (prev sH cH : Int) (hp : 0 ≤ prev) (hc : 0 ≤ cH)
    (hm : prev ≤ sH - cH) :
    scrollStep prev sH cH
      = ScrollOutcome.ok prev (min (prev + cH) (sH - cH)) (sH - cH)
    ∧ 0 ≤ min (prev + cH) (sH - cH)
    ∧ min (prev + cH) (sH - cH) ≤ sH - cH
    ∧ prev ≤ min (prev + cH) (sH - cH)
    ∧ (atBottom (scrollStep prev sH cH) = true ↔ sH - cH ≤ min (prev + cH) (sH - cH)) := by
  refine ⟨rfl, le_min (by linarith) (by linarith), min_le_right _ _,
    le_min (by linarith) hm, ?_⟩
  simp [scrollStep, atBottom]

/-- Witness for C5 at `prev = 0`, `scrollHeight = 10`, `clientHeight = 4`. -/
theorem C5_witness :
    (0 : Int) ≤ 0 ∧ (0 : Int) ≤ 4 ∧ (0 : Int) ≤ 10 - 4
    ∧ scrollStep 0 10 4 = ScrollOutcome.ok 0 (min (0 + 4) (10 - 4)) (10 - 4) :=
  ⟨by decide, by decide, by decide,
    (C5_scroll_advancer 0 10 4 (by decide) (by decide) (by decide)).1⟩

/-- C6 counterexample: `extract_new_products` carries the seen set and
deduplicates, so invoking it twice in succession on an unchanged rendered
row set does not yield identical candidate sets — the first call accepts
the row, the second returns nothing. -/
theorem C6_counterexample :
    (extract_new_products domC6 (extract_new_products domC6 []).2).1
      ≠ (extract_new_products domC6 []).1
    ∧ (extract_new_products domC6 []).1 ≠ [] :=
  ⟨by decide, by decide⟩

/-- C6 amended: the DOM read underlying extraction is idempotent and
leaves the rendered set unchanged, and the full extraction operation is
idempotent on its threaded seen state: a second invocation against the
unchanged rendered set accepts nothing new and leaves the seen set
unchanged (it deduplicates; the offer-once behavior lives in the seen
set, not in the read). -/
theorem C6_extraction_idempotent_amended (dom : List RowEl) (seen : List String) :
    (readRowsST ((readRowsST dom).2)).1 = (readRowsST dom).1
    ∧ (readRowsST dom).2 = dom
    ∧ (extract_new_products dom ((extract_new_products dom seen).2)).1 = []
    ∧ (extract_new_products dom ((extract_new_products dom seen).2)).2
        = (extract_new_products dom seen).2 := by
  have h2 : dedupRows (readRows dom) ((dedupRows (readRows dom) seen).2)
      = ([], (dedupRows (readRows dom) seen).2) :=
    dedupRows_no_new _ _
      (fun k hk => (dedupRows_seen_mem (readRows dom) seen k).2 (Or.inr hk))
  exact ⟨rfl, rfl, by simp [extract_new_products, h2], by simp [extract_new_products, h2]⟩

/-- C7: the compiled raw-string pattern demands literal backslash
characters, so it never matches the natural banner text `"Showing 10 of
500 products"`; the code therefore keeps the default target 2849, while
the pattern the claim describes matches and captures 500. -/
theorem C7_raw_string_pattern_never_matches :
    searchLowered matchActualAt bannerText = none
    ∧ computeTargetCount bannerText = Except.ok 2849
    ∧ searchLowered matchIntendedAt bannerText = some "500"
    ∧ computeTargetCountSpec bannerText = 500 :=
  ⟨by decide, by rfl, by decide, by rfl⟩

theorem find?_filter {α : Type} (l : List α) (q p : α → Bool) :
    (l.filter q).find? p = l.find? (fun x => q x && p x) := by
  induction l with
  | nil => rfl
  | cons a l ih =>
    cases hq : q a
    · simp [List.filter_cons, hq, List.find?_cons, ih]
    · cases hp : p a <;> simp [List.filter_cons, hq, List.find?_cons, hp, ih]

theorem walkUp_eq_find (l : List Elem) :
    walkUp l = (l.takeWhile (fun e => !(e.tag == "body"))).find? isScrollerB := by
  induction l with
  | nil => rfl
  | cons e rest ih =>
    cases hb : (e.tag == "body")
    · cases hs : isScrollerB e
      · simp [walkUp, hb, hs, List.takeWhile_cons, List.find?_cons, ih]
      · simp [walkUp, hb, hs, List.takeWhile_cons, List.find?_cons]
    · simp [walkUp, hb, List.takeWhile_cons]

/-- C9 counterexample: with a single ancestor styled `overflowY: auto`
whose `scrollHeight` exceeds its `clientHeight` by exactly one unit, the
source resolver reports no scroller (its margin is strict at one unit:
`scrollHeight > clientHeight + 1`), while the resolver the claim
describes returns that ancestor. -/
theorem C9_counterexample :
    getScroller tableC9 [ancC9] = none
    ∧ getScrollerSpec tableC9 [ancC9] = some ancC9 :=
  ⟨rfl, rfl⟩

/-- C9 amended: the resolver returns the first element, among the chain
from the table upward cut at the document body followed by the table's
`div` descendants in document order, whose computed vertical overflow is
`auto` or `scroll` and whose `scrollHeight` exceeds its `clientHeight` by
strictly more than one unit; it reports no scroller exactly when no
element of either search satisfies that predicate. -/
theorem C9_resolver_amended (table : Elem) (ancestors : List Elem) :
    getScroller table ancestors
      = (((table :: ancestors).takeWhile (fun e => !(e.tag == "body")))
          ++ (descOf table).filter (fun d => d.tag == "div")).find? isScrollerB
    ∧ (getScroller table ancestors = none ↔
        (∀ e ∈ (table :: ancestors).takeWhile (fun e => !(e.tag == "body")),
          isScrollerB e = false)
        ∧ (∀ d ∈ (descOf table).filter (fun d => d.tag == "div"),
          isScrollerB d = false)) := by
  have h1 : getScroller table ancestors
      = (((table :: ancestors).takeWhile (fun e => !(e.tag == "body")))
          ++ (descOf table).filter (fun d => d.tag == "div")).find? isScrollerB := by
    rw [getScroller, walkUp_eq_find, List.find?_append, find?_filter]
    cases h : ((table :: ancestors).takeWhile (fun e => !(e.tag == "body"))).find? isScrollerB
    · simp [Option.or]
    · simp [Option.or]
  refine ⟨h1, ?_⟩
  rw [h1, List.find?_append]
  cases h : ((table :: ancestors).takeWhile (fun e => !(e.tag == "body"))).find? isScrollerB with
  | some e =>
    simp only [Option.or_some]  -- hmm: (some e).or x = some e
    constructor
    · intro hcontra; cases hcontra
    · intro ⟨ha, _⟩
      have := List.find?_some h
      have hmem := List.mem_of_find?_eq_some h
      exact absurd (ha e hmem) (by simp [this])
  | none =>
    rw [List.find?_eq_none] at h
    simp only [Option.none_or]
    rw [List.find?_eq_none]
    constructor
    · intro hall
      refine ⟨fun e he => ?_, fun d hd => ?_⟩
      · have := h e he; simpa using this
      · have := hall d hd; simpa using this
    · intro ⟨_, hb⟩ d hd
      simpa using hb d hd

/-- C10: a row whose first cell is non-empty and unseen is accepted even
with fewer than seven cells; its positional projections beyond the
available cells are the empty string and its `cells` field is the raw
cell list verbatim. -/
theorem C10_short_row_projections (c0 : String) (cs seen : List String)
    (h0 : c0 ≠ "") (hs : c0 ∉ seen) (hlen : (c0 :: cs).length < 7) :
    (dedupRows [c0 :: cs] seen).1 = [mkItem (c0 :: cs)]
    ∧ (mkItem (c0 :: cs)).cells = c0 :: cs
    ∧ (mkItem (c0 :: cs)).id = c0
    ∧ (mkItem (c0 :: cs)).score = ""
    ∧ ((c0 :: cs).length ≤ 1 → (mkItem (c0 :: cs)).category = "")
    ∧ ((c0 :: cs).length ≤ 2 → (mkItem (c0 :: cs)).color = "")
    ∧ ((c0 :: cs).length ≤ 3 → (mkItem (c0 :: cs)).dimensions = "")
    ∧ ((c0 :: cs).length ≤ 4 → (mkItem (c0 :: cs)).price = "")
    ∧ ((c0 :: cs).length ≤ 5 → (mkItem (c0 :: cs)).product = "") := by
  have hcm : ¬(c0 = "" ∨ c0 ∈ seen) := by tauto
  refine ⟨by simp [dedupRows, if_neg hcm], rfl, rfl, ?_, ?_, ?_, ?_, ?_, ?_⟩
  · show (c0 :: cs).getD 6 "" = ""
    exact List.getD_eq_default _ _ (by omega)
  · intro h; show (c0 :: cs).getD 1 "" = ""
    exact List.getD_eq_default _ _ (by omega)
  · intro h; show (c0 :: cs).getD 2 "" = ""
    exact List.getD_eq_default _ _ (by omega)
  · intro h; show (c0 :: cs).getD 3 "" = ""
    exact List.getD_eq_default _ _ (by omega)
  · intro h; show (c0 :: cs).getD 4 "" = ""
    exact List.getD_eq_default _ _ (by omega)
  · intro h; show (c0 :: cs).getD 5 "" = ""
    exact List.getD_eq_default _ _ (by omega)

theorem roundStep_attempts (target : Int) (inp : RoundInput) (st : HState) :
    (roundStep target inp st).attempts = st.attempts + 1 := rfl

theorem roundStep_products (target : Int) (inp : RoundInput) (st : HState) :
    (roundStep target inp st).products
      = st.products ++ (dedupRows inp.rows st.seen).1 := rfl

theorem roundStep_seen (target : Int) (inp : RoundInput) (st : HState) :
    (roundStep target inp st).seen = (dedupRows inp.rows st.seen).2 := rfl

theorem roundStep_noProgress (target : Int) (inp : RoundInput) (st : HState) :
    (roundStep target inp st).noProgress
      = if st.lastCount < (st.products ++ (dedupRows inp.rows st.seen).1).length
        then 0 else st.noProgress + 1 := rfl

theorem roundStep_lastCount (target : Int) (inp : RoundInput) (st : HState) :
    (roundStep target inp st).lastCount
      = if st.lastCount < (st.products ++ (dedupRows inp.rows st.seen).1).length
        then (st.products ++ (dedupRows inp.rows st.seen).1).length
        else st.lastCount := rfl

theorem harvestAux_attempts_le (env : ℕ → RoundInput) (target : Int) :
    ∀ fuel st, (harvestAux env target fuel st).1.attempts ≤ st.attempts + fuel := by
  intro fuel
  induction fuel with
  | zero => intro st; simp [harvestAux]
  | succ n ih =>
    intro st
    simp only [harvestAux]
    split
    · simp only [roundStep_attempts]
      omega
    · refine le_trans (ih _) ?_
      simp only [roundStep_attempts]
      omega

theorem harvestAux_no_stop (env : ℕ → RoundInput) (target : Int)
    (h : ∀ t np, stopNow (env t).scroll np = false) :
    ∀ fuel st, (harvestAux env target fuel st).1.attempts = st.attempts + fuel
      ∧ (harvestAux env target fuel st).2 = Reason.safetyCeiling := by
  intro fuel
  induction fuel with
  | zero => intro st; simp [harvestAux]
  | succ n ih =>
    intro st
    have hc : stopNow (env (st.attempts + 1)).scroll
        (roundStep target (env (st.attempts + 1)) st).noProgress = false := h _ _
    simp only [harvestAux, hc, Bool.false_eq_true, if_false]
    refine ⟨?_, (ih _).2⟩
    rw [(ih _).1, roundStep_attempts]
    omega

theorem harvestAux_preserve (env : ℕ → RoundInput) (target : Int) (P : HState → Prop)
    (hP : ∀ st, P st → P (roundStep target (env (st.attempts + 1)) st)) :
    ∀ fuel st, P st → P (harvestAux env target fuel st).1 := by
  intro fuel
  induction fuel with
  | zero => intro st h; exact h
  | succ n ih =>
    intro st h
    simp only [harvestAux]
    split
    · exact hP st h
    · exact ih _ (hP st h)

theorem harvestAux_add (env : ℕ → RoundInput) (target : Int) :
    ∀ a b st,
      harvestAux env target (a + b) st
        = match harvestAux env target a st with
          | (st', Reason.exhausted) => (st', Reason.exhausted)
          | (st', Reason.safetyCeiling) => harvestAux env target b st' := by
  intro a
  induction a with
  | zero =>
    intro b st
    rw [Nat.zero_add]
    rfl
  | succ n ih =>
    intro b st
    have hh : n + 1 + b = n + b + 1 := by omega
    rw [hh]
    simp only [harvestAux]
    cases hstop : stopNow (env (st.attempts + 1)).scroll
        (roundStep target (env (st.attempts + 1)) st).noProgress
    · simp only [Bool.false_eq_true, if_false]
      exact ih b _
    · simp only [if_true]

theorem harvestAux_safety_attempts (env : ℕ → RoundInput) (target : Int) :
    ∀ fuel st, (harvestAux env target fuel st).2 = Reason.safetyCeiling →
      (harvestAux env target fuel st).1.attempts = st.attempts + fuel := by
  intro fuel
  induction fuel with
  | zero => intro st _; simp [harvestAux]
  | succ n ih =>
    intro st h
    simp only [harvestAux] at h ⊢
    cases hstop : stopNow (env (st.attempts + 1)).scroll
        (roundStep target (env (st.attempts + 1)) st).noProgress
    · simp only [hstop, Bool.false_eq_true, if_false] at h ⊢
      rw [ih _ h, roundStep_attempts]
      omega
    · simp only [hstop, if_true] at h
      exact absurd h (by simp)

/-- C1: on the failing input — a table with zero rows whose scroll step
reports the distinguished `no-scroller` outcome every round — the loop
does not stop after six rounds: `at_bottom` is left `False` whenever the
scroll step is not `ok`, so the break never fires and the run consumes
all 20000 rounds, ending with the safety-ceiling reason (harvesting
nothing, as expected). -/
theorem C1_no_scroller_runs_to_ceiling :
    (scroll_and_collect_all envNoScroller 2849).1.attempts = safety_ceiling
    ∧ (scroll_and_collect_all envNoScroller 2849).2 = Reason.safetyCeiling
    ∧ (scroll_and_collect_all envNoScroller 2849).1.products = [] := by
  have hstop : ∀ t np, stopNow (envNoScroller t).scroll np = false := by
    intro t np
    simp [envNoScroller, stopNow, atBottom]
  have hrun := harvestAux_no_stop envNoScroller 2849 hstop safety_ceiling initState
  have hpres := harvestAux_preserve envNoScroller 2849 (fun st => st.products = [])
    (fun st h => by simp [roundStep_products, envNoScroller, dedupRows, h])
    safety_ceiling initState rfl
  have h0 : initState.attempts = 0 := rfl
  refine ⟨?_, ?_, ?_⟩
  · rw [scroll_and_collect_all, hrun.1, h0]
    exact Nat.zero_add _
  · rw [scroll_and_collect_all]
    exact hrun.2
  · rw [scroll_and_collect_all]
    exact hpres

/-- C3: every harvest run executes at most 20000 rounds; and a run whose
scroll step is always `ok`, never at the bottom and never stalled runs to
exactly round 20000 and ends with the safety-ceiling reason, which is a
distinct completion reason from exhaustion. -/
theorem C3_safety_ceiling_bound (env : ℕ → RoundInput) (target : Int) :
    (scroll_and_collect_all env target).1.attempts ≤ safety_ceiling
    ∧ ((∀ t, ∃ p n m, (env t).scroll = ScrollOutcome.ok p n m ∧ n < m ∧ n ≠ p) →
        (scroll_and_collect_all env target).1.attempts = safety_ceiling
        ∧ (scroll_and_collect_all env target).2 = Reason.safetyCeiling) := by
  have h0 : initState.attempts = 0 := rfl
  constructor
  · have h := harvestAux_attempts_le env target safety_ceiling initState
    rw [scroll_and_collect_all]
    omega
  · intro h
    have hstop : ∀ t np, stopNow (env t).scroll np = false := by
      intro t np
      obtain ⟨p, n, m, heq, hlt, _⟩ := h t
      have hnb : ¬(m ≤ n) := not_le.2 hlt
      simp [stopNow, heq, atBottom, noMove, hnb]
    have hrun := harvestAux_no_stop env target hstop safety_ceiling initState
    constructor
    · rw [scroll_and_collect_all, hrun.1, h0]
      exact Nat.zero_add _
    · rw [scroll_and_collect_all]
      exact hrun.2

/-- Witness for C3 with a scroller that always moves from 0 to 3 with
maximum 10. -/
theorem C3_witness :
    (scroll_and_collect_all envNeverBottom 0).1.attempts = safety_ceiling
    ∧ (scroll_and_collect_all envNeverBottom 0).2 = Reason.safetyCeiling :=
  (C3_safety_ceiling_bound envNeverBottom 0).2
    (fun _ => ⟨0, 3, 10, rfl, by decide, by decide⟩)

theorem roundStep_coreOf (t1 t2 : Int) (inp : RoundInput) (st1 st2 : HState)
    (h : coreOf st1 = coreOf st2) :
    coreOf (roundStep t1 inp st1) = coreOf (roundStep t2 inp st2) := by
  simp only [coreOf, Prod.mk.injEq] at h
  obtain ⟨hp, hs, ha, hn, hl⟩ := h
  simp [coreOf, roundStep, hp, hs, ha, hn, hl]

theorem harvestAux_core (env : ℕ → RoundInput) (t1 t2 : Int) :
    ∀ fuel st1 st2, coreOf st1 = coreOf st2 →
      coreOf (harvestAux env t1 fuel st1).1 = coreOf (harvestAux env t2 fuel st2).1
      ∧ (harvestAux env t1 fuel st1).2 = (harvestAux env t2 fuel st2).2 := by
  intro fuel
  induction fuel with
  | zero => intro st1 st2 h; exact ⟨h, rfl⟩
  | succ n ih =>
    intro st1 st2 h
    have h' := h
    simp only [coreOf, Prod.mk.injEq] at h'
    obtain ⟨hp, hs, ha, hn, hl⟩ := h'
    simp only [harvestAux]
    rw [ha]
    have hcore' : coreOf (roundStep t1 (env (st2.attempts + 1)) st1)
        = coreOf (roundStep t2 (env (st2.attempts + 1)) st2) :=
      roundStep_coreOf t1 t2 _ st1 st2 h
    have hnp : (roundStep t1 (env (st2.attempts + 1)) st1).noProgress
        = (roundStep t2 (env (st2.attempts + 1)) st2).noProgress := by
      have h2 := congrArg (fun x => x.2.2.2.1) hcore'
      simpa [coreOf] using h2
    rw [hnp]
    cases hstop : stopNow (env (st2.attempts + 1)).scroll
        (roundStep t2 (env (st2.attempts + 1)) st2).noProgress
    · simp only [Bool.false_eq_true, if_false]
      exact ih _ _ hcore'
    · simp only [if_true]
      exact ⟨hcore', trivial⟩

/-- C8: two harvest runs over the same page behavior that differ only in
the target count hint produce the same harvested record sequence, execute
the same number of rounds, and end with the same completion reason — the
hint is read only when forming the progress percentages. -/
theorem C8_target_hint_noninterference (env : ℕ → RoundInput) (t1 t2 : Int) :
    (scroll_and_collect_all env t1).1.products = (scroll_and_collect_all env t2).1.products
    ∧ (scroll_and_collect_all env t1).1.attempts
        = (scroll_and_collect_all env t2).1.attempts
    ∧ (scroll_and_collect_all env t1).2 = (scroll_and_collect_all env t2).2 := by
  have h := harvestAux_core env t1 t2 safety_ceiling initState initState rfl
  refine ⟨?_, ?_, h.2⟩
  · have h2 := congrArg (fun x => x.1) h.1
    simpa [coreOf] using h2
  · have h2 := congrArg (fun x => x.2.2.1) h.1
    simpa [coreOf] using h2

theorem offeredKeysUpTo_succ (env : ℕ → RoundInput) (a : ℕ) :
    offeredKeysUpTo env (a + 1)
      = offeredKeysUpTo env a ++ offeredKeys (env (a + 1)).rows := by
  simp [offeredKeysUpTo, List.range_succ, List.flatMap_append]

theorem harvestAux_seen_last_inv (env : ℕ → RoundInput) (target : Int) :
    ∀ fuel st,
      ((∀ k ∈ offeredKeysUpTo env st.attempts, k ∈ st.seen)
        ∧ st.lastCount = st.products.length) →
      ((∀ k ∈ offeredKeysUpTo env (harvestAux env target fuel st).1.attempts,
          k ∈ (harvestAux env target fuel st).1.seen)
        ∧ (harvestAux env target fuel st).1.lastCount
            = (harvestAux env target fuel st).1.products.length) := by
  intro fuel st h
  refine harvestAux_preserve env target
    (fun s => (∀ k ∈ offeredKeysUpTo env s.attempts, k ∈ s.seen)
      ∧ s.lastCount = s.products.length) ?_ fuel st h
  intro s hs
  constructor
  · intro k hk
    rw [roundStep_attempts, offeredKeysUpTo_succ] at hk
    rw [roundStep_seen, dedupRows_seen_mem]
    rcases List.mem_append.1 hk with h1 | h1
    · exact Or.inl (hs.1 k h1)
    · exact Or.inr h1
  · rw [roundStep_lastCount, roundStep_products]
    by_cases hlt : s.lastCount
        < (s.products ++ (dedupRows (env (s.attempts + 1)).rows s.seen).1).length
    · rw [if_pos hlt]
    · rw [if_neg hlt]
      rw [hs.2] at hlt ⊢
      simp only [List.length_append, not_lt] at hlt ⊢
      omega

theorem roundStep_stalled (env : ℕ → RoundInput) (target : Int) (st : HState)
    (hext : dedupRows (env (st.attempts + 1)).rows st.seen = ([], st.seen))
    (hlast : st.lastCount = st.products.length) :
    (roundStep target (env (st.attempts + 1)) st).products = st.products
    ∧ (roundStep target (env (st.attempts + 1)) st).seen = st.seen
    ∧ (roundStep target (env (st.attempts + 1)) st).noProgress = st.noProgress + 1
    ∧ (roundStep target (env (st.attempts + 1)) st).lastCount = st.lastCount := by
  refine ⟨?_, ?_, ?_, ?_⟩
  · rw [roundStep_products, hext]
    simp
  · rw [roundStep_seen, hext]
  · rw [roundStep_noProgress, hext]
    simp [hlast]
  · rw [roundStep_lastCount, hext]
    simp [hlast]

theorem harvestAux_stall (env : ℕ → RoundInput) (target : Int) (r : ℕ)
    (Hrows : ∀ t, r < t → ∀ k ∈ offeredKeys (env t).rows, k ∈ offeredKeysUpTo env r)
    (Hscroll : ∀ t, r < t →
      ∃ p m, (env t).scroll = ScrollOutcome.ok p p m ∧ m ≤ p) :
    ∀ fuel n st, 1 ≤ n → 5 ≤ st.noProgress + n → r ≤ st.attempts →
      (∀ k ∈ offeredKeysUpTo env r, k ∈ st.seen) →
      st.lastCount = st.products.length →
      (harvestAux env target fuel st).1.attempts ≤ st.attempts + n := by
  intro fuel
  induction fuel with
  | zero =>
    intro n st h1 h5 hr hseen hlast
    simp only [harvestAux]
    omega
  | succ fuel ih =>
    intro n st h1 h5 hr hseen hlast
    have hext : dedupRows (env (st.attempts + 1)).rows st.seen = ([], st.seen) :=
      dedupRows_no_new _ _ (fun k hk => hseen k (Hrows _ (by omega) k hk))
    obtain ⟨hP, hS, hN, hL⟩ := roundStep_stalled env target st hext hlast
    obtain ⟨p, m, hsc, hmp⟩ := Hscroll (st.attempts + 1) (by omega)
    have hstop : stopNow (env (st.attempts + 1)).scroll
        (roundStep target (env (st.attempts + 1)) st).noProgress
        = decide (5 ≤ st.noProgress + 1) := by
      rw [hN, hsc]
      simp [stopNow, noMove, atBottom, hmp]
    by_cases hq : 5 ≤ st.noProgress + 1
    · have hstop2 : stopNow (env (st.attempts + 1)).scroll
          (roundStep target (env (st.attempts + 1)) st).noProgress = true := by
        rw [hstop]
        exact decide_eq_true hq
      simp only [harvestAux, hstop2, if_true]
      show (roundStep target (env (st.attempts + 1)) st).attempts ≤ st.attempts + n
      rw [roundStep_attempts]
      omega
    · have hstop2 : stopNow (env (st.attempts + 1)).scroll
          (roundStep target (env (st.attempts + 1)) st).noProgress = false := by
        rw [hstop]
        exact decide_eq_false hq
      simp only [harvestAux, hstop2, Bool.false_eq_true, if_false]
      have hrec := ih (n - 1) (roundStep target (env (st.attempts + 1)) st)
        (by omega) (by rw [hN]; omega) (by rw [roundStep_attempts]; omega)
        (by rw [hS]; exact hseen) (by rw [hL, hP]; exact hlast)
      rw [roundStep_attempts] at hrec
      omega

/-- C4: if after round `r` every offered key was already offered by round
`r` (no new rows) and the scroller is stalled at the bottom, the harvest
loop terminates at round at most `r + 5`; when `r + 5` is below the
safety ceiling the completion reason is exhaustion. -/
theorem C4_termination_bound (env : ℕ → RoundInput) (target : Int) (r : ℕ)
    (Hrows : ∀ t, r < t → ∀ k ∈ offeredKeys (env t).rows, k ∈ offeredKeysUpTo env r)
    (Hscroll : ∀ t, r < t →
      ∃ p m, (env t).scroll = ScrollOutcome.ok p p m ∧ m ≤ p) :
    (scroll_and_collect_all env target).1.attempts ≤ r + 5
    ∧ (r + 5 < safety_ceiling →
        (scroll_and_collect_all env target).2 = Reason.exhausted) := by
  have hsc : safety_ceiling = 20000 := rfl
  by_cases hr : safety_ceiling ≤ r
  · constructor
    · have h := harvestAux_attempts_le env target safety_ceiling initState
      have h0 : initState.attempts = 0 := rfl
      have hgoal : (scroll_and_collect_all env target).1.attempts
          ≤ initState.attempts + safety_ceiling := h
      omega
    · intro hcon
      exact absurd hcon (by omega)
  · push_neg at hr
    have hsplit := harvestAux_add env target r (safety_ceiling - r) initState
    have hr' : r + (safety_ceiling - r) = safety_ceiling := by omega
    rw [hr'] at hsplit
    rcases hpre : harvestAux env target r initState with ⟨stp, rsn⟩
    rw [hpre] at hsplit
    cases rsn with
    | exhausted =>
      have hov : scroll_and_collect_all env target = (stp, Reason.exhausted) := by
        rw [scroll_and_collect_all, hsplit]
      have hat : stp.attempts ≤ r := by
        have h := harvestAux_attempts_le env target r initState
        rw [hpre] at h
        simpa [initState] using h
      rw [hov]
      exact ⟨by simpa using Nat.le_trans hat (by omega), fun _ => rfl⟩
    | safetyCeiling =>
      have hov : scroll_and_collect_all env target
          = harvestAux env target (safety_ceiling - r) stp := by
        rw [scroll_and_collect_all, hsplit]
      have hat : stp.attempts = r := by
        have h := harvestAux_safety_attempts env target r initState (by rw [hpre])
        rw [hpre] at h
        simpa [initState] using h
      have hinit : (∀ k ∈ offeredKeysUpTo env initState.attempts, k ∈ initState.seen)
          ∧ initState.lastCount = initState.products.length := by
        refine ⟨?_, rfl⟩
        intro k hk
        simp [offeredKeysUpTo, initState] at hk
      have hinv := harvestAux_seen_last_inv env target r initState hinit
      rw [hpre] at hinv
      have hseen_stp : ∀ k ∈ offeredKeysUpTo env r, k ∈ stp.seen := by
        have h := hinv.1
        rw [show ((stp, Reason.safetyCeiling) : HState × Reason).1 = stp from rfl] at h
        rw [hat] at h
        exact h
      have hlast_stp : stp.lastCount = stp.products.length := hinv.2
      have hstall := harvestAux_stall env target r Hrows Hscroll
        (safety_ceiling - r) 5 stp (by omega) (by omega) (by omega)
        hseen_stp hlast_stp
      have hbound : (scroll_and_collect_all env target).1.attempts ≤ r + 5 := by
        rw [hov]
        omega
      refine ⟨hbound, ?_⟩
      intro hlt
      cases hres : (scroll_and_collect_all env target).2 with
      | exhausted => rfl
      | safetyCeiling =>
        exfalso
        have h20 : (scroll_and_collect_all env target).1.attempts
            = initState.attempts + safety_ceiling :=
          harvestAux_safety_attempts env target safety_ceiling initState hres
        have h0 : initState.attempts = 0 := rfl
        omega

/-- Witness for C4 with a table stalled at the bottom from the start and
offering no rows, at `r = 0`. -/
theorem C4_witness :
    (scroll_and_collect_all envStalled 0).1.attempts ≤ 0 + 5
    ∧ (0 + 5 < safety_ceiling →
        (scroll_and_collect_all envStalled 0).2 = Reason.exhausted) :=
  C4_termination_bound envStalled 0 0
    (fun t _ k hk => by simp [envStalled, offeredKeys] at hk)
    (fun t _ => ⟨7, 7, rfl, le_refl 7⟩)

/-- Witness for C10 on the two-cell row `["A", "B"]`. -/
theorem C10_witness :
    ("A" : String) ≠ "" ∧ "A" ∉ ([] : List String)
    ∧ (("A" : String) :: ["B"]).length < 7
    ∧ (dedupRows [["A", "B"]] []).1 = [mkItem ["A", "B"]]
    ∧ (mkItem ["A", "B"]).color = "" :=
  ⟨by decide, by decide, by decide,
    (C10_short_row_projections "A" ["B"] [] (by decide) (by decide) (by decide)).1,
    (C10_short_row_projections "A" ["B"] [] (by decide) (by decide) (by decide)).2.2.2.2.2.1
      (by decide)⟩

end Scrape
